import Mathlib

/-
  Verification of the caching / admission-control core of the neoc-assistant
  repository.  Shallow embedding of:
    - LRUCache                  (src/neoc_assistant/rag_pipeline.py)
    - ResponseCache (TTL)       (src/neoc_assistant/llm_service.py)
    - RateLimiter               (src/neoc_assistant/security.py)
    - InputValidator            (src/neoc_assistant/security.py)
    - SecurityManager.validate_request
    - RAGPipeline.process_query, _add_to_conversation_memory,
      _cleanup_memory, _get_context, _extract_sources

  Python dicts are modelled as insertion-ordered association lists; Python
  floats appearing only in time arithmetic are modelled as rationals (the
  values reached by the theorems below are exactly representable in binary
  floating point, so the models agree with the float semantics there).
-/

namespace Neoc

/-! ### LRUCache (rag_pipeline.py)

The `OrderedDict` is modelled as a list of key/value pairs whose head is the
least-recently-used entry and whose last element is the most-recently-used
one.  `move_to_end` is remove-then-append; `popitem(last=False)` removes the
head and raises `KeyError` (modelled as `none`) on an empty dict. -/

structure LRUCache (α : Type) where
  capacity : Nat
  cache : List (String × α)
deriving DecidableEq

/-- Fresh cache, as built by `LRUCache.__init__`. -/
def LRUCache.empty (α : Type) (capacity : Nat) : LRUCache α :=
  ⟨capacity, []⟩

/-- First value bound to `k` in an association list (dict lookup). -/
def assocLookup {α : Type} (k : String) : List (String × α) → Option α
  | [] => none
  | (k', v) :: t => if k' = k then some v else assocLookup k t

/-- Remove the first binding of `k` (dict `del` / part of `move_to_end`). -/
def assocErase {α : Type} (k : String) : List (String × α) → List (String × α)
  | [] => []
  | (k', v) :: t => if k' = k then t else (k', v) :: assocErase k t

/-- `LRUCache.get`: on a hit, `move_to_end` then return the value; on a miss
return `None` without touching the dict. -/
def lruGet {α : Type} (k : String) (st : LRUCache α) : Option α × LRUCache α :=
  match assocLookup k st.cache with
  | none => (none, st)
  | some v => (some v, ⟨st.capacity, assocErase k st.cache ++ [(k, v)]⟩)

/-- `LRUCache.put`: existing key is moved to the end and overwritten; a new
key first evicts the head when the dict is at capacity.  `popitem` on an
empty dict raises `KeyError`, modelled by `none` (reachable only with
capacity 0). -/
def lruPut {α : Type} (k : String) (v : α) (st : LRUCache α) :
    Option (LRUCache α) :=
  match assocLookup k st.cache with
  | some _ => some ⟨st.capacity, assocErase k st.cache ++ [(k, v)]⟩
  | none =>
    if st.cache.length ≥ st.capacity then
      match st.cache with
      | [] => none
      | _ :: rest => some ⟨st.capacity, rest ++ [(k, v)]⟩
    else
      some ⟨st.capacity, st.cache ++ [(k, v)]⟩

/-- One client-visible operation on an `LRUCache`. -/
inductive LRUOp (α : Type) where
  | put : String → α → LRUOp α
  | get : String → LRUOp α
deriving DecidableEq

/-- Run a sequence of operations; `none` as soon as a `put` raises. -/
def lruRun {α : Type} (ops : List (LRUOp α)) (st : LRUCache α) :
    Option (LRUCache α) :=
  match ops with
  | [] => some st
  | .put k v :: t =>
    match lruPut k v st with
    | none => none
    | some st' => lruRun t st'
  | .get k :: t => lruRun t (lruGet k st).2

/-! ### ResponseCache with TTL (llm_service.py)

The dict maps keys to `(value, timestamp)`.  `put` at capacity first deletes
the entry whose stored timestamp is smallest (`min` over the keys, first key
on ties, `ValueError` on an empty dict — modelled as `none`), then assigns;
a dict assignment keeps the position of an existing key and appends a new
one. -/

structure ResponseCache where
  maxSize : Nat
  ttl : Int
  cache : List (String × String × Int)
deriving DecidableEq

/-- Dict assignment: replace in place if present, append otherwise. -/
def setKey {α : Type} (k : String) (v : α) :
    List (String × α) → List (String × α)
  | [] => [(k, v)]
  | (k', v') :: t => if k' = k then (k, v) :: t else (k', v') :: setKey k v t

/-- `min(self.cache.keys(), key=lambda k: self.cache[k][1])` — first key with
minimal timestamp in iteration order. -/
def oldestKeyAux (best : String × Int) : List (String × String × Int) → String
  | [] => best.1
  | (k, _, ts) :: t =>
    if ts < best.2 then oldestKeyAux (k, ts) t else oldestKeyAux best t

def oldestKey : List (String × String × Int) → Option String
  | [] => none
  | (k, _, ts) :: t => some (oldestKeyAux (k, ts) t)

/-- `ResponseCache.get`: hit only while `now - timestamp < ttl`; an expired
entry is deleted on access and reported absent. -/
def rcGet (now : Int) (k : String) (st : ResponseCache) :
    Option String × ResponseCache :=
  match assocLookup k st.cache with
  | none => (none, st)
  | some (v, ts) =>
    if now - ts < st.ttl then (some v, st)
    else (none, ⟨st.maxSize, st.ttl, assocErase k st.cache⟩)

/-- `ResponseCache.put`: evict the oldest-by-insertion-time entry when at
capacity, then record `(value, now)`. -/
def rcPut (now : Int) (k v : String) (st : ResponseCache) :
    Option ResponseCache :=
  if st.cache.length ≥ st.maxSize then
    match oldestKey st.cache with
    | none => none
    | some ko =>
      some ⟨st.maxSize, st.ttl, setKey k (v, now) (assocErase ko st.cache)⟩
  else
    some ⟨st.maxSize, st.ttl, setKey k (v, now) st.cache⟩

/-- Keys of an association list are pairwise distinct (dict invariant). -/
def keysNodup {α : Type} (l : List (String × α)) : Prop :=
  (l.map Prod.fst).Nodup

/-! ### RateLimiter (security.py)

Token-bucket limiter.  A bucket is a dict with keys `tokens` and
`last_time`; a client without a bucket behaves like one whose `last_time`
defaults to the current time and whose `tokens` default to
`requests_per_minute` (the capacity).  Token counts and times are floats in
the source, modelled as rationals. -/

structure Bucket where
  tokens : ℚ
  lastTime : ℚ
deriving DecidableEq

structure RateLimiterState where
  requestsPerMinute : Nat
  buckets : List (String × Bucket)
  lastCleanup : ℚ
deriving DecidableEq

/-- `tokens_per_second = requests_per_minute / 60.0`. -/
def tokensPerSecond (st : RateLimiterState) : ℚ :=
  (st.requestsPerMinute : ℚ) / 60

/-- `_cleanup_old_entries`: drop buckets idle for more than an hour. -/
def rlCleanup (now : ℚ) (st : RateLimiterState) : RateLimiterState :=
  ⟨st.requestsPerMinute,
    st.buckets.filter (fun p => !decide (p.2.lastTime < now - 3600)),
    now⟩

/-- `RateLimiter.is_allowed`: optional periodic cleanup, refill by elapsed
time capped at capacity, then consume one token if at least one is
available; a rejection updates only the refill timestamp. -/
def isAllowed (now : ℚ) (client : String) (st : RateLimiterState) :
    Bool × RateLimiterState :=
  let st₁ := if now - st.lastCleanup > 300 then rlCleanup now st else st
  let cap : ℚ := st₁.requestsPerMinute
  let b := (assocLookup client st₁.buckets).getD ⟨cap, now⟩
  let timePassed := now - b.lastTime
  let tokens := min (b.tokens + timePassed * tokensPerSecond st₁) cap
  if tokens ≥ 1 then
    (true, ⟨st₁.requestsPerMinute,
      setKey client ⟨tokens - 1, now⟩ st₁.buckets, st₁.lastCleanup⟩)
  else
    (false, ⟨st₁.requestsPerMinute,
      setKey client ⟨tokens, now⟩ st₁.buckets, st₁.lastCleanup⟩)

/-- `n` consecutive `is_allowed` calls for the same client at one instant,
returning the answers in order. -/
def isAllowedN (now : ℚ) (client : String) :
    Nat → RateLimiterState → List Bool × RateLimiterState
  | 0, st => ([], st)
  | n + 1, st =>
    let r := isAllowed now client st
    let rs := isAllowedN now client n r.2
    (r.1 :: rs.1, rs.2)

/-! ### InputValidator (security.py)

The twelve `DANGEROUS_PATTERNS` regexes are compiled with
`IGNORECASE | DOTALL`.  Each is modelled by an executable leftmost-match
function on the character list (ASCII scope: Python's unicode-aware
`isalnum`/`isspace`/`\w`/`\s` coincide with the ASCII predicates below on
the inputs considered).  All twelve patterns are deterministic in the sense
that greedy matching with these fixed literals needs no backtracking, so
the direct functional translation below computes exactly the Python match
span. -/

/-- Python `\s` / `str.isspace`, ASCII fragment. -/
def pyIsSpace (c : Char) : Bool :=
  c == ' ' || c == '\t' || c == '\n' || c == '\r' || c == '\x0b' || c == '\x0c'

/-- Python `str.isalnum`, ASCII fragment. -/
def pyIsAlnum (c : Char) : Bool :=
  c.isAlphanum

/-- Regex `\w`, ASCII fragment. -/
def isWordChar (c : Char) : Bool :=
  c.isAlphanum || c == '_'

/-- Case-insensitive character equality (`re.IGNORECASE`). -/
def lowEq (a b : Char) : Bool :=
  a.toLower == b.toLower

/-- Does `cs` start with `pat`, case-insensitively? -/
def startsWithCI : List Char → List Char → Bool
  | [], _ => true
  | _ :: _, [] => false
  | p :: ps, c :: cs => lowEq p c && startsWithCI ps cs

/-- Index of the first case-insensitive occurrence of `pat`. -/
def firstIndexOfCI (pat : List Char) : List Char → Option Nat
  | [] => if startsWithCI pat [] then some 0 else none
  | c :: t =>
    if startsWithCI pat (c :: t) then some 0
    else (firstIndexOfCI pat t).map (· + 1)

/-- Index of the last case-insensitive occurrence of `pat`. -/
def lastIndexOfCI (pat : List Char) : List Char → Option Nat
  | [] => if startsWithCI pat [] then some 0 else none
  | c :: t =>
    match lastIndexOfCI pat t with
    | some k => some (k + 1)
    | none => if startsWithCI pat (c :: t) then some 0 else none

/-- Match length at the current position for `<tag[^>]*>.*?</tag>`
(patterns 1, 6, 7, 8): literal `<tag`, a greedy run of non-`>` characters,
`>`, then the lazy `.*?` (DOTALL) up to the earliest `</tag>`. -/
def matchTagAt (tag : List Char) (cs : List Char) : Option Nat :=
  if startsWithCI ('<' :: tag) cs then
    let rest := cs.drop (1 + tag.length)
    let inner := rest.takeWhile (· != '>')
    match rest.drop inner.length with
    | '>' :: rest2 =>
      (firstIndexOfCI ('<' :: '/' :: (tag ++ ['>'])) rest2).map
        (fun k => 1 + tag.length + inner.length + 1 + k + (tag.length + 3))
    | _ => none
  else none

/-- Match length at the current position for a literal pattern
(patterns 2, 3, 4, 11). -/
def matchLitAt (pat : List Char) (cs : List Char) : Option Nat :=
  if startsWithCI pat cs then some pat.length else none

/-- Match length at the current position for `on\w+\s*=` (pattern 5). -/
def matchOnAt (cs : List Char) : Option Nat :=
  if startsWithCI ['o', 'n'] cs then
    let rest := cs.drop 2
    let w := rest.takeWhile isWordChar
    if w.length = 0 then none
    else
      let rest2 := rest.drop w.length
      let s := rest2.takeWhile pyIsSpace
      match rest2.drop s.length with
      | '=' :: _ => some (2 + w.length + s.length + 1)
      | _ => none
  else none

/-- Match length at the current position for `union\s+select` (pattern 9). -/
def matchUnionAt (cs : List Char) : Option Nat :=
  if startsWithCI ("union".data) cs then
    let rest := cs.drop 5
    let s := rest.takeWhile pyIsSpace
    if s.length = 0 then none
    else if startsWithCI ("select".data) (rest.drop s.length) then
      some (5 + s.length + 6)
    else none
  else none

/-- Match length at the current position for `;\s*drop\s+table`
(pattern 10). -/
def matchSqlDropAt (cs : List Char) : Option Nat :=
  match cs with
  | ';' :: rest =>
    let s1 := rest.takeWhile pyIsSpace
    let r1 := rest.drop s1.length
    if startsWithCI ("drop".data) r1 then
      let r2 := r1.drop 4
      let s2 := r2.takeWhile pyIsSpace
      if s2.length = 0 then none
      else if startsWithCI ("table".data) (r2.drop s2.length) then
        some (1 + s1.length + 4 + s2.length + 5)
      else none
    else none
  | _ => none

/-- Match length at the current position for `/\*.*\*/` (pattern 12):
greedy `.*` under DOTALL runs to the last `*/`. -/
def matchSqlCommentAt (cs : List Char) : Option Nat :=
  match cs with
  | '/' :: '*' :: rest => (lastIndexOfCI ("*/".data) rest).map (fun k => 2 + k + 2)
  | _ => none

/-- Leftmost match: `(start index, length)` of the first position where the
positional matcher succeeds (`re.search` semantics). -/
def scanMatch (mAt : List Char → Option Nat) : List Char → Option (Nat × Nat)
  | [] => (mAt []).map (fun l => (0, l))
  | c :: t =>
    match mAt (c :: t) with
    | some l => some (0, l)
    | none => (scanMatch mAt t).map (fun p => (p.1 + 1, p.2))

/-- `InputValidator.DANGEROUS_PATTERNS`, compiled, in source order. -/
def dangerousMatchers : List (List Char → Option (Nat × Nat)) :=
  [scanMatch (matchTagAt ("script".data)),
   scanMatch (matchLitAt ("javascript:".data)),
   scanMatch (matchLitAt ("data:".data)),
   scanMatch (matchLitAt ("vbscript:".data)),
   scanMatch matchOnAt,
   scanMatch (matchTagAt ("iframe".data)),
   scanMatch (matchTagAt ("object".data)),
   scanMatch (matchTagAt ("embed".data)),
   scanMatch matchUnionAt,
   scanMatch matchSqlDropAt,
   scanMatch (matchLitAt ("--".data)),
   scanMatch matchSqlCommentAt]

/-- The sequential `pattern.search` loop of `validate_text`: does any
dangerous pattern match? -/
def anyDangerous (cs : List Char) : Bool :=
  dangerousMatchers.any (fun f => (f cs).isSome)

/-- `sum(1 for c in text if not c.isalnum() and not c.isspace())`. -/
def specialCount (cs : List Char) : Nat :=
  (cs.filter (fun c => !pyIsAlnum c && !pyIsSpace c)).length

/-- `InputValidator.validate_text`.  The float ratio comparison
`special_chars / len(text) > 0.5` is modelled over ℚ; for the integer
ranges reachable here (both operands at most the input length) the float
comparison computes the same Boolean. -/
def validateText (maxLength : Nat) (text : String) : Bool × String :=
  if text = "" then (false, "Input must be a non-empty string")
  else if text.length > maxLength then
    (false, "Input too long (max " ++ toString maxLength ++ " characters)")
  else if anyDangerous text.data then
    (false, "Input contains potentially dangerous content")
  else if ((specialCount text.data : ℚ) / (text.length : ℚ)) > 1 / 2 then
    (false, "Input contains too many special characters")
  else (true, "Valid")

/-- `re.sub` with a fixed replacement: repeatedly take the leftmost match,
splice in the replacement, and continue after the match.  Every dangerous
pattern and `\s+` only produce matches of length at least 1, so the fuel
`length + 1` always suffices. -/
def pySubAll (find : List Char → Option (Nat × Nat)) (repl : List Char) :
    Nat → List Char → List Char
  | 0, cs => cs
  | fuel + 1, cs =>
    match find cs with
    | none => cs
    | some (s, l) =>
      cs.take s ++ repl ++ pySubAll find repl fuel (cs.drop (s + max l 1))

def pySub (find : List Char → Option (Nat × Nat)) (repl : List Char)
    (cs : List Char) : List Char :=
  pySubAll find repl (cs.length + 1) cs

/-- Leftmost maximal whitespace run (`\s+`). -/
def findWsRun : List Char → Option (Nat × Nat) :=
  scanMatch (fun cs =>
    let s := cs.takeWhile pyIsSpace
    if s.length = 0 then none else some s.length)

/-- Python `str.strip()`. -/
def pyStrip (cs : List Char) : List Char :=
  ((cs.dropWhile pyIsSpace).reverse.dropWhile pyIsSpace).reverse

/-- `InputValidator.sanitize_text`: strip every dangerous-pattern match,
then strip the ends and collapse whitespace runs to single spaces. -/
def sanitizeText (text : String) : String :=
  let cs := dangerousMatchers.foldl (fun acc f => pySub f [] acc) text.data
  String.mk (pySub findWsRun [' '] (pyStrip cs))

/-! Whitespace-normal form: every whitespace character is a single isolated
space and the text neither starts nor ends with whitespace.  On such texts
the strip-and-collapse phase of `sanitize_text` is the identity. -/

/-- No two adjacent whitespace characters. -/
def noAdjWs : List Char → Bool
  | [] => true
  | [_] => true
  | a :: b :: t => !(pyIsSpace a && pyIsSpace b) && noAdjWs (b :: t)

/-- Every whitespace character is a plain space. -/
def wsOnlySpaces (cs : List Char) : Bool :=
  cs.all (fun c => !pyIsSpace c || c == ' ')

def wsNormal (cs : List Char) : Bool :=
  (match cs.head? with | none => true | some c => !pyIsSpace c) &&
  (match cs.getLast? with | none => true | some c => !pyIsSpace c) &&
  wsOnlySpaces cs && noAdjWs cs

/-! ### SecurityManager (security.py)

`validate_request` runs the rate limiter FIRST and only then the input
validator.  The request log models the `request_log` list with
`max_log_entries = 1000`; `_log_security_event` entries carry a truncated
`details` field, `_log_request` entries none. -/

structure SecurityEvent where
  timestamp : ℚ
  eventType : String
  clientId : String
  details : Option String
deriving DecidableEq

structure SecurityManagerState where
  enableRateLimiting : Bool
  enableInputValidation : Bool
  maxInputLength : Nat
  rl : RateLimiterState
  requestLog : List SecurityEvent
deriving DecidableEq

/-- `_log_security_event`: append, then pop the front when over the cap. -/
def logSecurityEvent (now : ℚ) (eventType clientId details : String)
    (log : List SecurityEvent) : List SecurityEvent :=
  let log' := log ++ [⟨now, eventType, clientId, some details⟩]
  if log'.length > 1000 then log'.drop 1 else log'

/-- `_log_request`: pop the front when at the cap, then append. -/
def logRequest (now : ℚ) (clientId eventType : String)
    (log : List SecurityEvent) : List SecurityEvent :=
  let log' := if log.length ≥ 1000 then log.drop 1 else log
  log' ++ [⟨now, eventType, clientId, none⟩]

/-- The part of `validate_request` after the rate-limit gate. -/
def validateRequestRest (now : ℚ) (text clientId : String)
    (st : SecurityManagerState) :
    (Bool × String) × SecurityManagerState :=
  if st.enableInputValidation then
    let v := validateText st.maxInputLength text
    if v.1 = false then
      ((false, v.2),
        { st with requestLog := (logSecurityEvent now "invalid_input" clientId
            (String.mk (text.data.take 100)) st.requestLog) })
    else
      ((true, "Request validated"),
        { st with requestLog := (logRequest now clientId "valid_request"
            st.requestLog) })
  else
    ((true, "Request validated"),
      { st with requestLog := (logRequest now clientId "valid_request"
          st.requestLog) })

/-- `SecurityManager.validate_request`: rate-limit admission first (the
call consumes a token when admitted), then input validation. -/
def validateRequest (now : ℚ) (text clientId : String)
    (st : SecurityManagerState) :
    (Bool × String) × SecurityManagerState :=
  if st.enableRateLimiting then
    let r := isAllowed now clientId st.rl
    if r.1 = false then
      ((false, "Rate limit exceeded. Please try again later."),
        { st with rl := r.2 })
    else
      validateRequestRest now text clientId { st with rl := r.2 }
  else
    validateRequestRest now text clientId st

/-! ### RAGPipeline (rag_pipeline.py)

`process_query` returns Python dicts; they are modelled as `PyDict`
association lists in the literal key order of the source.  The external
`rag_chain.invoke` call is a parameter (`Except String String`: the
generated text or a raised exception), `time.time()` instants are `Int`
parameters and measured durations are rational parameters. -/

/-- A value in a Python result dict. -/
inductive PyVal where
  | s : String → PyVal
  | b : Bool → PyVal
  | f : ℚ → PyVal
  | strList : List String → PyVal
deriving DecidableEq

abbrev PyDict := List (String × PyVal)

structure Exchange where
  question : String
  response : String
  timestamp : Int
deriving DecidableEq

structure RAGMetrics where
  totalQueries : Nat
  cacheHits : Nat
  totalResponseTime : ℚ
  avgResponseTime : ℚ
deriving DecidableEq

structure RAGState where
  responseCache : LRUCache PyDict
  contextCache : LRUCache String
  conversationMemory : List (String × List Exchange)
  maxMemoryMB : Nat
  currentMemoryUsage : Nat
  metrics : RAGMetrics
deriving DecidableEq

/-- Python `str.strip()`. -/
def stripStr (s : String) : String :=
  String.mk (pyStrip s.data)

/-- `_generate_cache_key` returns
`md5(f"{question}:{conversation_id}".encode()).hexdigest()`.  The md5
digest is a fixed deterministic function of the combined string, treated as
collision-free; it is modelled as the identity on that string. -/
def generateCacheKey (question conversationId : String) : String :=
  question ++ ":" ++ conversationId

/-- `len(question.encode()) + len(response.encode())`. -/
def memoryEstimate (q r : String) : Nat :=
  q.utf8ByteSize + r.utf8ByteSize

/-- Python `repr` of a string, modelled for strings without quotes,
backslashes or control characters: wrap in single quotes. -/
def pyReprStr (s : String) : String :=
  "\x27" ++ s ++ "\x27"

/-- Python `repr` of the float timestamp, for integral values. -/
def pyReprFloat (t : Int) : String :=
  toString t ++ ".0"

/-- Python `str` of one exchange dict (keys in insertion order). -/
def pyStrExchange (e : Exchange) : String :=
  "\x7b\x27question\x27: " ++ pyReprStr e.question ++
    ", \x27response\x27: " ++ pyReprStr e.response ++
    ", \x27timestamp\x27: " ++ pyReprFloat e.timestamp ++ "\x7d"

/-- Python `str` of the exchange list of one conversation. -/
def pyStrConv (l : List Exchange) : String :=
  "[" ++ String.intercalate ", " (l.map pyStrExchange) ++ "]"

/-- `len(str(conv).encode())` — the per-conversation summand of the
recomputed memory usage. -/
def convStrSize (l : List Exchange) : Nat :=
  (pyStrConv l).utf8ByteSize

/-- `RAGPipeline._cleanup_memory`: per conversation keep the exchanges
newer than one hour, truncated with `[:10]` (the FIRST ten of the
survivors, i.e. the oldest in-window ones); delete conversations left
empty; recompute `current_memory_usage` from `len(str(conv).encode())`. -/
def cleanupMemory (now : Int) (st : RAGState) : RAGState :=
  let cutoff := now - 3600
  let mem := st.conversationMemory.filterMap (fun p =>
    let recent := (p.2.filter (fun e => decide (e.timestamp > cutoff))).take 10
    if recent.isEmpty then none else some (p.1, recent))
  { st with conversationMemory := mem,
            currentMemoryUsage := (mem.map (fun p => convStrSize p.2)).sum }

/-- `RAGPipeline._add_to_conversation_memory`: append the exchange, add the
byte estimate to the running total, and sweep when the total exceeds
`max_memory_mb * 1024 * 1024`. -/
def addToConversationMemory (now : Int) (conversationId question response :
    String) (st : RAGState) : RAGState :=
  let mem0 := if (assocLookup conversationId st.conversationMemory).isSome
    then st.conversationMemory
    else st.conversationMemory ++ [(conversationId, [])]
  let est := memoryEstimate question response
  let ex : Exchange := ⟨question, response, now⟩
  let mem1 := mem0.map (fun p =>
    if p.1 = conversationId then (p.1, p.2 ++ [ex]) else p)
  let st' := { st with conversationMemory := mem1,
                       currentMemoryUsage := st.currentMemoryUsage + est }
  if st'.currentMemoryUsage > st.maxMemoryMB * 1024 * 1024 then
    cleanupMemory now st'
  else st'

/-- Python `str.isdigit` (ASCII digits). -/
def pyIsDigit (s : String) : Bool :=
  !s.data.isEmpty && s.data.all Char.isDigit

/-- `str.split()`: split on whitespace runs, discarding empties. -/
def splitWsAux : List Char → List Char → List String
  | [], acc => if acc.isEmpty then [] else [String.mk acc.reverse]
  | c :: t, acc =>
    if pyIsSpace c then
      if acc.isEmpty then splitWsAux t []
      else String.mk acc.reverse :: splitWsAux t []
    else splitWsAux t (c :: acc)

def splitWs (cs : List Char) : List String :=
  splitWsAux cs []

/-- First index of a character. -/
def findCharIdx (c : Char) : List Char → Option Nat
  | [] => none
  | d :: t => if d = c then some 0 else (findCharIdx c t).map (· + 1)

/-- The parenthetical-source step of `_extract_sources`:
`remaining.find("(")`, then `remaining.find(")", paren_start)`, then the
stripped slice between them, if nonempty. -/
def parenSource (rem : List Char) : Option String :=
  match findCharIdx '(' rem with
  | none => none
  | some ps =>
    match findCharIdx ')' (rem.drop ps) with
    | none => none
    | some k =>
      let src := String.mk (pyStrip ((rem.drop (ps + 1)).take (k - 1)))
      if src = "" then none else some src

/-- Insert into the `sources` set.  Python returns `list(sources)` in an
unspecified hash order; the model uses first-insertion order (the theorems
below only evaluate it where the set has at most one element). -/
def addSource (s : String) (l : List String) : List String :=
  if l.contains s then l else l ++ [s]

/-- The index loop of `_extract_sources`; the index advances by at least
one per step, so fuel `words.length + 1` always suffices. -/
def extractLoop (words : List String) :
    Nat → Nat → List String → List String
  | 0, _, acc => acc
  | fuel + 1, i, acc =>
    if hi : i < words.length then
      if words.get ⟨i, hi⟩ = "document" then
        if hnext : i + 1 < words.length then
          let nxt := words.get ⟨i + 1, hnext⟩
          if pyIsDigit nxt then
            extractLoop words fuel (i + 2)
              (addSource ("Document " ++ nxt) acc)
          else
            let rem := (String.intercalate " " (words.drop i)).data
            let acc' := match parenSource rem with
              | some src => addSource src acc
              | none => acc
            extractLoop words fuel (i + 1) acc'
        else extractLoop words fuel (i + 1) acc
      else extractLoop words fuel (i + 1) acc
    else acc

/-- Python `str.lower` (ASCII scope). -/
def pyLower (s : String) : String :=
  String.mk (s.data.map Char.toLower)

/-- `RAGPipeline._extract_sources`. -/
def extractSources (response : String) : List String :=
  if response = "" then []
  else
    let words := splitWs (pyLower response).data
    extractLoop words (words.length + 1) 0 []

/-- `RAGPipeline._create_error_response`, keys in source order. -/
def createErrorResponse (errorMsg conversationId : String) : PyDict :=
  [("response", .s ("An error occurred: " ++ errorMsg)),
   ("conversation_id", .s conversationId),
   ("sources", .strList []),
   ("success", .b false),
   ("error", .s errorMsg)]

/-- The success envelope built by `process_query`, keys in source order. -/
def successEnvelope (response conversationId : String)
    (sources : List String) (elapsed : ℚ) : PyDict :=
  [("response", .s response),
   ("conversation_id", .s conversationId),
   ("sources", .strList sources),
   ("success", .b true),
   ("processing_time", .f elapsed)]

/-- `RAGPipeline._update_metrics`. -/
def updateMetrics (responseTime : ℚ) (m : RAGMetrics) : RAGMetrics :=
  let total := m.totalResponseTime + responseTime
  { m with totalResponseTime := total,
           avgResponseTime := total / (m.totalQueries : ℚ) }

/-- The compute path of `process_query` (the `try` block): invoke the
chain, store the exchange, build and cache the envelope; on an exception
return the error envelope without caching. -/
def processCompute (genResult : Except String String) (now : Int)
    (elapsed : ℚ) (q conversationId key : String) (st : RAGState) :
    Option (PyDict × RAGState) :=
  match genResult with
  | .error e => some (createErrorResponse e conversationId, st)
  | .ok result =>
    let response := if result = "" then "No response generated"
      else stripStr result
    let st := addToConversationMemory now conversationId q response st
    let sources := extractSources response
    let env := successEnvelope response conversationId sources elapsed
    match lruPut key env st.responseCache with
    | none => none
    | some rc =>
      some (env, { st with responseCache := rc,
                           metrics := updateMetrics elapsed st.metrics })

/-- `RAGPipeline.process_query`. -/
def processQuery (genResult : Except String String) (now : Int)
    (elapsed : ℚ) (question conversationId : String) (st : RAGState) :
    Option (PyDict × RAGState) :=
  let st := { st with metrics :=
    { st.metrics with totalQueries := st.metrics.totalQueries + 1 } }
  if stripStr question = "" then
    some (createErrorResponse "Invalid question provided" conversationId, st)
  else
    let q := stripStr question
    if q.length > 1000 then
      some (createErrorResponse "Question too long" conversationId, st)
    else
      let key := generateCacheKey q conversationId
      let g := lruGet key st.responseCache
      let st := { st with responseCache := g.2 }
      match g.1 with
      | some env =>
        if env.isEmpty then
          processCompute genResult now elapsed q conversationId key st
        else
          some (env, { st with metrics :=
            { st.metrics with cacheHits := st.metrics.cacheHits + 1 } })
      | none => processCompute genResult now elapsed q conversationId key st

/-! ### `_get_context` and `format_context` (for C10) -/

/-- A retrieved document as consumed by `format_context`: `page_content`
plus an optional `metadata['source']`. -/
structure PyDoc where
  pageContent : String
  source : Option String
deriving DecidableEq

/-- `LLMService.format_context`. -/
def formatContext (docs : List PyDoc) : String :=
  if docs.isEmpty then "No relevant context found in the documents."
  else
    String.join (docs.enum.map (fun p =>
      let content := if p.2.pageContent.length > 1000
        then p.2.pageContent.take 1000 ++ "..." else p.2.pageContent
      let src := p.2.source.getD ("Document " ++ toString (p.1 + 1))
      "Document " ++ toString (p.1 + 1) ++ " (" ++ src ++ "):\n" ++
        content ++ "\n"))

/-- `_get_context` keys the context cache on `md5(question.encode())`;
as with `generateCacheKey` the digest is modelled as the identity. -/
def contextCacheKey (question : String) : String :=
  question

/-- The compute path of `_get_context`: search (a parameter standing for
`document_processor.search_similar`), format, cache; on a raised search
error return the fallback string without caching. -/
def computeContext (searchResult : Except Unit (List PyDoc)) (key : String)
    (cache : LRUCache String) : Option (String × LRUCache String) :=
  match searchResult with
  | .error _ => some ("No context available due to retrieval error.", cache)
  | .ok docs =>
    let context := formatContext docs
    match lruPut key context cache with
    | none => none
    | some c' => some (context, c')

/-- `RAGPipeline._get_context`: the cached value is used only when truthy
(`if cached_context:`), so a cached empty string is treated as a miss. -/
def getContext (searchResult : Except Unit (List PyDoc)) (question : String)
    (cache : LRUCache String) : Option (String × LRUCache String) :=
  if question = "" then some ("No question provided.", cache)
  else
    let key := contextCacheKey question
    let g := lruGet key cache
    match g.1 with
    | some ctx =>
      if ctx = "" then computeContext searchResult key g.2
      else some (ctx, g.2)
    | none => computeContext searchResult key g.2

/-- The value `LRUCache.get` hands to a Python caller when the cache stores
optional values: `None` both for a missing key and for a stored `None` —
the two levels collapse. -/
def lruGetPy {α : Type} (k : String) (st : LRUCache (Option α)) : Option α :=
  ((lruGet k st).1).join

lemma assocErase_length_of_mem {α : Type} (k : String)
    (l : List (String × α)) (h : (assocLookup k l).isSome) :
    (assocErase k l).length + 1 = l.length := by
  induction l with
  | nil => simp [assocLookup] at h
  | cons p t ih =>
    obtain ⟨k', v⟩ := p
    by_cases hk : k' = k
    · simp [assocErase, hk]
    · simp only [assocLookup, hk, if_false] at h
      simp [assocErase, hk, ih h]

lemma lruPut_length {α : Type} (k : String) (v : α) (st st' : LRUCache α)
    (hlen : st.cache.length ≤ st.capacity)
    (h : lruPut k v st = some st') :
    st'.cache.length ≤ st.capacity ∧ st'.capacity = st.capacity := by
  unfold lruPut at h
  split at h
  · next hl =>
    simp only [Option.some.injEq] at h
    subst h
    have := assocErase_length_of_mem k st.cache (by simp [hl])
    refine ⟨?_, rfl⟩
    simp only [List.length_append, List.length_cons, List.length_nil]
    omega
  · next hl =>
    split at h
    · next hcap =>
      split at h
      · exact absurd h (by simp)
      · next p rest heq =>
        simp only [Option.some.injEq] at h
        subst h
        refine ⟨?_, rfl⟩
        simp only [List.length_append, List.length_cons, List.length_nil]
        rw [heq] at hlen
        simp only [List.length_cons] at hlen
        omega
    · next hcap =>
      simp only [Option.some.injEq] at h
      subst h
      refine ⟨?_, rfl⟩
      simp only [List.length_append, List.length_cons, List.length_nil]
      omega

lemma lruGet_length {α : Type} (k : String) (st : LRUCache α) :
    ((lruGet k st).2).cache.length = st.cache.length ∧
      ((lruGet k st).2).capacity = st.capacity := by
  unfold lruGet
  cases h : assocLookup k st.cache with
  | none => simp
  | some v =>
    constructor
    · simp only [List.length_append, List.length_cons, List.length_nil]
      have := assocErase_length_of_mem k st.cache (by simp [h])
      omega
    · rfl

lemma lruRun_length {α : Type} (ops : List (LRUOp α)) (st st' : LRUCache α)
    (hlen : st.cache.length ≤ st.capacity)
    (h : lruRun ops st = some st') :
    st'.cache.length ≤ st.capacity ∧ st'.capacity = st.capacity := by
  induction ops generalizing st with
  | nil =>
    simp only [lruRun, Option.some.injEq] at h
    subst h; exact ⟨hlen, rfl⟩
  | cons op t ih =>
    cases op with
    | put k v =>
      simp only [lruRun] at h
      cases hp : lruPut k v st with
      | none => rw [hp] at h; exact absurd h (by simp)
      | some st₁ =>
        rw [hp] at h
        obtain ⟨h1, h2⟩ := lruPut_length k v st st₁ hlen hp
        obtain ⟨h3, h4⟩ := ih st₁ (by omega) h
        exact ⟨by omega, by omega⟩
    | get k =>
      simp only [lruRun] at h
      obtain ⟨h1, h2⟩ := lruGet_length k st
      obtain ⟨h3, h4⟩ := ih _ (by omega) h
      exact ⟨by omega, by omega⟩

/-- C1: after every operation sequence the LRU cache holds at most
`capacity` entries; a `put` of a fresh key at capacity evicts exactly the
head of the recency order, which is the least-recently-accessed entry
because `get` and `put` on an existing key both move that key to the
most-recent end; and the capacity-2 scenario put(a,1), put(b,2), put(c,3)
then get(a)=absent, get(b)=2, get(c)=3 holds. -/
theorem lru_capacity_bound_and_evicts_lru :
    (∀ (α : Type) (cap : Nat) (ops : List (LRUOp α)) (st' : LRUCache α),
        lruRun ops (LRUCache.empty α cap) = some st' →
        st'.cache.length ≤ cap) ∧
    (∀ (α : Type) (st : LRUCache α) (k : String) (v : α)
        (p : String × α) (rest : List (String × α)),
        st.cache = p :: rest →
        assocLookup k st.cache = none →
        st.cache.length = st.capacity →
        lruPut k v st = some ⟨st.capacity, rest ++ [(k, v)]⟩) ∧
    (∀ (α : Type) (st : LRUCache α) (k : String) (v : α),
        assocLookup k st.cache = some v →
        lruGet k st =
          (some v, ⟨st.capacity, assocErase k st.cache ++ [(k, v)]⟩)) ∧
    (∀ (α : Type) (st : LRUCache α) (k : String) (v w : α),
        assocLookup k st.cache = some w →
        lruPut k v st =
          some ⟨st.capacity, assocErase k st.cache ++ [(k, v)]⟩) ∧
    (lruRun [.put "a" 1, .put "b" 2, .put "c" 3] (LRUCache.empty Nat 2) =
        some ⟨2, [("b", 2), ("c", 3)]⟩ ∧
      (lruGet "a" (⟨2, [("b", 2), ("c", 3)]⟩ : LRUCache Nat)).1 = none ∧
      (lruGet "b" (⟨2, [("b", 2), ("c", 3)]⟩ : LRUCache Nat)).1 = some 2 ∧
      (lruGet "c" (⟨2, [("b", 2), ("c", 3)]⟩ : LRUCache Nat)).1 = some 3) := by
  refine ⟨?_, ?_, ?_, ?_, by decide⟩
  · intro α cap ops st' h
    exact (lruRun_length ops (LRUCache.empty α cap) st' (by simp [LRUCache.empty]) h).1
  · intro α st k v p rest hc hl hcap
    unfold lruPut
    rw [hl, hc]
    have hge : (p :: rest).length ≥ st.capacity := by rw [← hc, hcap]
    simp only [List.length_cons] at hge
    simp [hge]
  · intro α st k v hl
    unfold lruGet
    rw [hl]
  · intro α st k v w hl
    unfold lruPut
    rw [hl]

/-- Witness for C1: the capacity bound applied to the concrete
capacity-2 run of the specified scenario. -/
theorem lru_capacity_bound_and_evicts_lru_witness :
    (⟨2, [("b", 2), ("c", 3)]⟩ : LRUCache Nat).cache.length ≤ 2 :=
  lru_capacity_bound_and_evicts_lru.1 Nat 2
    [.put "a" 1, .put "b" 2, .put "c" 3] ⟨2, [("b", 2), ("c", 3)]⟩ (by decide)

lemma assocLookup_setKey_self {α : Type} (k : String) (v : α)
    (l : List (String × α)) : assocLookup k (setKey k v l) = some v := by
  induction l with
  | nil => simp [setKey, assocLookup]
  | cons p t ih =>
    obtain ⟨k', v'⟩ := p
    by_cases hk : k' = k
    · simp [setKey, hk, assocLookup]
    · simp [setKey, hk, assocLookup, ih]

lemma mem_keys_assocErase {α : Type} (k x : String) (l : List (String × α))
    (h : x ∈ (assocErase k l).map Prod.fst) : x ∈ l.map Prod.fst := by
  induction l with
  | nil => simp [assocErase] at h
  | cons p t ih =>
    obtain ⟨k', v'⟩ := p
    by_cases hk : k' = k
    · simp only [assocErase, hk, if_true] at h
      simp [h]
    · simp only [assocErase, hk, if_false, List.map_cons, List.mem_cons] at h
      rcases h with h | h
      · simp [h]
      · simp [ih h]

lemma keysNodup_assocErase {α : Type} (k : String) (l : List (String × α))
    (h : keysNodup l) : keysNodup (assocErase k l) := by
  induction l with
  | nil => simpa [assocErase] using h
  | cons p t ih =>
    obtain ⟨k', v'⟩ := p
    simp only [keysNodup, List.map_cons, List.nodup_cons] at h
    by_cases hk : k' = k
    · simpa [assocErase, hk] using h.2
    · simp only [assocErase, hk, if_false]
      refine List.Nodup.cons ?_ (ih h.2)
      intro hmem
      exact h.1 (mem_keys_assocErase k k' t hmem)

lemma mem_keys_setKey {α : Type} (k x : String) (v : α)
    (l : List (String × α)) (h : x ∈ (setKey k v l).map Prod.fst) :
    x ∈ l.map Prod.fst ∨ x = k := by
  induction l with
  | nil => simpa [setKey] using h
  | cons p t ih =>
    obtain ⟨k', v'⟩ := p
    by_cases hk : k' = k
    · simp only [setKey, hk, if_true, List.map_cons, List.mem_cons] at h
      rcases h with h | h
      · right; exact h
      · left; simp [h]
    · simp only [setKey, hk, if_false, List.map_cons, List.mem_cons] at h
      rcases h with h | h
      · left; simp [h]
      · rcases ih h with h' | h'
        · left; simp [h']
        · right; exact h'

lemma keysNodup_setKey {α : Type} (k : String) (v : α)
    (l : List (String × α)) (h : keysNodup l) : keysNodup (setKey k v l) := by
  induction l with
  | nil => simp [setKey, keysNodup]
  | cons p t ih =>
    obtain ⟨k', v'⟩ := p
    simp only [keysNodup, List.map_cons, List.nodup_cons] at h
    by_cases hk : k' = k
    · subst hk
      simp only [setKey, if_pos rfl, keysNodup, List.map_cons]
      exact (List.nodup_cons).2 ⟨h.1, h.2⟩
    · simp only [setKey, hk, if_false]
      refine List.Nodup.cons ?_ (ih h.2)
      intro hmem
      rcases mem_keys_setKey k k' v t hmem with h' | h'
      · exact h.1 h'
      · exact hk h'

lemma assocLookup_eq_none_of_not_mem {α : Type} (k : String)
    (l : List (String × α)) (h : k ∉ l.map Prod.fst) :
    assocLookup k l = none := by
  induction l with
  | nil => simp [assocLookup]
  | cons p t ih =>
    obtain ⟨k', v'⟩ := p
    simp only [List.map_cons, List.mem_cons] at h
    push_neg at h
    simp only [assocLookup]
    rw [if_neg (fun hc => h.1 hc.symm)]
    exact ih h.2

lemma assocLookup_assocErase_self {α : Type} (k : String)
    (l : List (String × α)) (h : keysNodup l) :
    assocLookup k (assocErase k l) = none := by
  induction l with
  | nil => simp [assocErase, assocLookup]
  | cons p t ih =>
    obtain ⟨k', v'⟩ := p
    simp only [keysNodup, List.map_cons, List.nodup_cons] at h
    by_cases hk : k' = k
    · subst hk
      simp only [assocErase, if_true]
      exact assocLookup_eq_none_of_not_mem k' t h.1
    · simp only [assocErase, hk, if_false, assocLookup]
      exact ih h.2

lemma rcPut_lookup (now : Int) (k v : String) (st st₁ : ResponseCache)
    (h : rcPut now k v st = some st₁) :
    assocLookup k st₁.cache = some (v, now) ∧ st₁.ttl = st.ttl ∧
      (keysNodup st.cache → keysNodup st₁.cache) := by
  unfold rcPut at h
  split at h
  · split at h
    · exact absurd h (by simp)
    · simp only [Option.some.injEq] at h
      subst h
      exact ⟨assocLookup_setKey_self _ _ _, rfl, fun hn =>
        keysNodup_setKey _ _ _ (keysNodup_assocErase _ _ hn)⟩
  · simp only [Option.some.injEq] at h
    subst h
    exact ⟨assocLookup_setKey_self _ _ _, rfl, fun hn =>
      keysNodup_setKey _ _ _ hn⟩

/-- C5: an entry put at time `t0` is returned by `get` at exactly the times
`t` with `t - t0 < ttl` (so throughout `[t0, t0 + ttl)`), is absent and
deleted once `t - t0 ≥ ttl`, and in general `get` never returns a value
whose age reaches the TTL. -/
theorem ttl_cache_entry_window (st st₁ : ResponseCache) (k v : String)
    (t0 t : Int) (hnodup : keysNodup st.cache)
    (hput : rcPut t0 k v st = some st₁) (ht : t0 ≤ t) :
    ((rcGet t k st₁).1 = if t - t0 < st₁.ttl then some v else none) ∧
      (st₁.ttl ≤ t - t0 →
        assocLookup k ((rcGet t k st₁).2).cache = none) ∧
      (∀ (c : ResponseCache) (now : Int) (k' v' : String),
        (rcGet now k' c).1 = some v' →
        ∃ ts, assocLookup k' c.cache = some (v', ts) ∧ now - ts < c.ttl) := by
  obtain ⟨hl, _, hn⟩ := rcPut_lookup t0 k v st st₁ hput
  refine ⟨?_, ?_, ?_⟩
  · unfold rcGet
    rw [hl]
    by_cases hc : t - t0 < st₁.ttl
    · simp [hc]
    · simp [hc]
  · intro hexp
    simp only [rcGet, hl]
    rw [if_neg (show ¬ (t - t0 < st₁.ttl) by omega)]
    exact assocLookup_assocErase_self k st₁.cache (hn hnodup)
  · intro c now k' v' hget
    cases hlk : assocLookup k' c.cache with
    | none => simp [rcGet, hlk] at hget
    | some p =>
      obtain ⟨w, ts⟩ := p
      simp only [rcGet, hlk] at hget
      by_cases hc : now - ts < c.ttl
      · rw [if_pos hc] at hget
        simp only [Option.some.injEq] at hget
        exact ⟨ts, by rw [hget], hc⟩
      · rw [if_neg hc] at hget
        simp at hget

/-- Witness for C5: a fresh TTL-3600 cache, entry put at time 0, read back
at time 3599 (a hit). -/
theorem ttl_cache_entry_window_witness :
    ((rcGet 3599 "k" ⟨100, 3600, [("k", "v", 0)]⟩).1 =
      if (3599 : Int) - 0 < (3600 : Int) then some "v" else none) :=
  (ttl_cache_entry_window ⟨100, 3600, []⟩ ⟨100, 3600, [("k", "v", 0)]⟩
    "k" "v" 0 3599 (by simp [keysNodup]) (by decide) (by decide)).1

lemma setKey_eq_of_lookup {α : Type} (k : String) (v : α)
    (l : List (String × α)) (h : assocLookup k l = some v) :
    setKey k v l = l := by
  induction l with
  | nil => simp [assocLookup] at h
  | cons p t ih =>
    obtain ⟨k', v'⟩ := p
    by_cases hk : k' = k
    · subst hk
      have hv : v' = v := by simpa [assocLookup] using h
      simp [setKey, hv]
    · simp only [assocLookup, hk, if_false] at h
      simp [setKey, hk, ih h]

lemma setKey_setKey {α : Type} (k : String) (v w : α)
    (l : List (String × α)) : setKey k v (setKey k w l) = setKey k v l := by
  induction l with
  | nil => simp [setKey]
  | cons p t ih =>
    obtain ⟨k', v'⟩ := p
    by_cases hk : k' = k
    · simp [setKey, hk]
    · simp [setKey, hk, ih]

lemma isAllowed_at_bucket (now : ℚ) (client : String)
    (st : RateLimiterState) (j : ℚ)
    (hb : assocLookup client st.buckets = some ⟨j, now⟩)
    (hle : j ≤ (st.requestsPerMinute : ℚ))
    (hclean : now - st.lastCleanup ≤ 300) :
    isAllowed now client st =
      (if j ≥ 1 then true else false,
        ⟨st.requestsPerMinute,
          setKey client ⟨if j ≥ 1 then j - 1 else j, now⟩ st.buckets,
          st.lastCleanup⟩) := by
  have hnc : ¬ now - st.lastCleanup > 300 := not_lt.mpr hclean
  simp only [isAllowed, if_neg hnc, hb, Option.getD_some]
  have harith :
      min (j + (now - now) * tokensPerSecond st) (st.requestsPerMinute : ℚ)
        = j := by
    rw [sub_self, zero_mul, add_zero]
    exact min_eq_left hle
  rw [harith]
  split_ifs with hj
  · rfl
  · rfl

lemma isAllowedN_drain (client : String) (now : ℚ) :
    ∀ (k : Nat) (st : RateLimiterState) (j : Nat),
      assocLookup client st.buckets = some ⟨(j : ℚ), now⟩ →
      (j : ℚ) ≤ (st.requestsPerMinute : ℚ) →
      now - st.lastCleanup ≤ 300 →
      k ≤ j →
      isAllowedN now client k st =
        (List.replicate k true,
          ⟨st.requestsPerMinute,
            setKey client ⟨((j - k : Nat) : ℚ), now⟩ st.buckets,
            st.lastCleanup⟩) := by
  intro k
  induction k with
  | zero =>
    intro st j hb hle hclean hk
    simp only [isAllowedN, List.replicate]
    rw [Nat.sub_zero, setKey_eq_of_lookup client ⟨(j : ℚ), now⟩ st.buckets hb]
  | succ n ih =>
    intro st j hb hle hclean hk
    have hj1 : (j : ℚ) ≥ 1 := by
      have : 1 ≤ j := by omega
      exact_mod_cast this
    simp only [isAllowedN]
    rw [isAllowed_at_bucket now client st (j : ℚ) hb hle hclean]
    simp only [if_pos hj1]
    have hstep : ((j : ℚ) - 1) = (((j - 1 : Nat)) : ℚ) := by
      have : 1 ≤ j := by omega
      push_cast [this]
      ring
    rw [hstep]
    have hrec := ih
      ⟨st.requestsPerMinute,
        setKey client ⟨((j - 1 : Nat) : ℚ), now⟩ st.buckets, st.lastCleanup⟩
      (j - 1)
      (assocLookup_setKey_self client _ st.buckets)
      (by
        have : (j - 1 : Nat) ≤ j := by omega
        calc ((j - 1 : Nat) : ℚ) ≤ (j : ℚ) := by exact_mod_cast this
          _ ≤ _ := hle)
      hclean
      (by omega)
    rw [hrec]
    simp only [setKey_setKey]
    have hsub : j - 1 - n = j - (n + 1) := by omega
    rw [hsub]
    rfl

/-- C6: with capacity `N = requests_per_minute`, `N + 1` consecutive
`is_allowed` calls for a fresh client with no elapsed time yield exactly
`N` times `true` followed by one `false`; after the run the bucket holds
zero tokens with refill timestamp `now`, and (for `N ≥ 1`) the rejected
call leaves the limiter state exactly as it was after the `N`-th call —
no token is consumed on rejection. -/
theorem rate_limiter_n_plus_one (st : RateLimiterState) (client : String)
    (now : ℚ)
    (hfresh : assocLookup client st.buckets = none)
    (hclean : now - st.lastCleanup ≤ 300) :
    (isAllowedN now client (st.requestsPerMinute + 1) st).1 =
        List.replicate st.requestsPerMinute true ++ [false] ∧
      assocLookup client
          ((isAllowedN now client (st.requestsPerMinute + 1) st).2).buckets =
        some ⟨0, now⟩ ∧
      (1 ≤ st.requestsPerMinute →
        (isAllowedN now client (st.requestsPerMinute + 1) st).2 =
          (isAllowedN now client st.requestsPerMinute st).2) := by
  have hsnoc : ∀ (n : Nat) (s : RateLimiterState),
      isAllowedN now client (n + 1) s =
        ((isAllowedN now client n s).1 ++
            [(isAllowed now client (isAllowedN now client n s).2).1],
          (isAllowed now client (isAllowedN now client n s).2).2) := by
    intro n
    induction n with
    | zero => intro s; rfl
    | succ m ih =>
      intro s
      have hL : isAllowedN now client (m + 1 + 1) s =
          ((isAllowed now client s).1 ::
              (isAllowedN now client (m + 1) (isAllowed now client s).2).1,
            (isAllowedN now client (m + 1) (isAllowed now client s).2).2) :=
        rfl
      have hR : isAllowedN now client (m + 1) s =
          ((isAllowed now client s).1 ::
              (isAllowedN now client m (isAllowed now client s).2).1,
            (isAllowedN now client m (isAllowed now client s).2).2) := rfl
      rw [hL, ih, hR]
      simp
  set N := st.requestsPerMinute with hN
  have hnc : ¬ now - st.lastCleanup > 300 := not_lt.mpr hclean
  have hfirst : isAllowed now client st =
      (if (N : ℚ) ≥ 1 then true else false,
        ⟨N, setKey client ⟨if (N : ℚ) ≥ 1 then (N : ℚ) - 1 else (N : ℚ), now⟩
            st.buckets, st.lastCleanup⟩) := by
    simp only [isAllowed, if_neg hnc, hfresh, Option.getD_none]
    have harith :
        min ((N : ℚ) + (now - now) * tokensPerSecond st) (N : ℚ) = (N : ℚ) := by
      rw [sub_self, zero_mul, add_zero, min_self]
    rw [harith]
    split_ifs with hn
    · rfl
    · rfl
  by_cases hN1 : 1 ≤ N
  · have hNq : (N : ℚ) ≥ 1 := by exact_mod_cast hN1
    have hstep : ((N : ℚ) - 1) = (((N - 1 : Nat)) : ℚ) := by
      push_cast [hN1]; ring
    -- state after the first (allowed) call
    set st₁ : RateLimiterState :=
      ⟨N, setKey client ⟨((N - 1 : Nat) : ℚ), now⟩ st.buckets,
        st.lastCleanup⟩ with hst₁
    have hfirst' : isAllowed now client st = (true, st₁) := by
      rw [hfirst, if_pos hNq, if_pos hNq, hstep]
    have hdrain := isAllowedN_drain client now (N - 1) st₁ (N - 1)
      (assocLookup_setKey_self client _ st.buckets)
      (by
        have : (N - 1 : Nat) ≤ N := by omega
        exact_mod_cast this)
      hclean (le_refl _)
    have hzero : ((N - 1 - (N - 1) : Nat) : ℚ) = 0 := by
      have : N - 1 - (N - 1) = 0 := by omega
      rw [this]; norm_num
    rw [hzero] at hdrain
    -- state after N calls
    set stN : RateLimiterState :=
      ⟨N, setKey client ⟨0, now⟩ st₁.buckets, st.lastCleanup⟩ with hstN
    have hdrain' : isAllowedN now client (N - 1) st₁ =
        (List.replicate (N - 1) true, stN) := by
      rw [hdrain]
    have hlookN : assocLookup client stN.buckets = some ⟨0, now⟩ :=
      assocLookup_setKey_self client _ st₁.buckets
    have hlast : isAllowed now client stN = (false, stN) := by
      rw [isAllowed_at_bucket now client stN 0 hlookN (by positivity) hclean]
      rw [if_neg (by norm_num), if_neg (by norm_num)]
      simp only [hstN]
      rw [setKey_setKey]
    have hNsub : N - 1 + 1 = N := by omega
    have hrunN : isAllowedN now client N st =
        (List.replicate N true, stN) := by
      conv_lhs => rw [← hNsub]
      simp only [isAllowedN]
      rw [hfirst']
      simp only [hdrain']
      have hrep : true :: List.replicate (N - 1) true =
          List.replicate N true := by
        rw [← hNsub]; rfl
      rw [hrep]
    have hrunN1 : isAllowedN now client (N + 1) st =
        (List.replicate N true ++ [false], stN) := by
      rw [hsnoc N st, hrunN]
      simp only [hlast]
    refine ⟨by rw [hrunN1], by rw [hrunN1]; exact hlookN, fun _ => ?_⟩
    rw [hrunN1, hrunN]
  · -- capacity 0: the single call is rejected
    have hN0 : N = 0 := by omega
    have hq : ¬ ((N : Nat) : ℚ) ≥ 1 := by rw [hN0]; norm_num
    have hfirst' : isAllowed now client st =
        (false, ⟨N, setKey client ⟨(N : ℚ), now⟩ st.buckets,
          st.lastCleanup⟩) := by
      rw [hfirst, if_neg hq, if_neg hq]
    rw [hN0]
    have h01 : (0 : Nat) + 1 = 1 := rfl
    rw [h01]
    have hrun1 : isAllowedN now client 1 st =
        ([false], ⟨N, setKey client ⟨(N : ℚ), now⟩ st.buckets,
          st.lastCleanup⟩) := by
      simp only [isAllowedN]
      rw [hfirst']
    rw [hrun1]
    refine ⟨rfl, ?_, fun h => by omega⟩
    have := assocLookup_setKey_self client
      (⟨(N : ℚ), now⟩ : Bucket) st.buckets
    rw [this]
    rw [hN0]
    norm_num

/-- Witness for C6: the spec's concrete scenario — capacity 3, four calls
at one instant give true, true, true, false. -/
theorem rate_limiter_n_plus_one_witness :
    (isAllowedN 0 "client1" 4 ⟨3, [], 0⟩).1 =
      List.replicate 3 true ++ [false] :=
  (rate_limiter_n_plus_one ⟨3, [], 0⟩ "client1" 0 (by decide)
    (by norm_num)).1

/-- For a text of positive length, the rational ratio test of
`validate_text` is the integer comparison `2 * special > length`. -/
lemma ratio_iff (s n : Nat) (hn : 0 < n) :
    ((s : ℚ) / (n : ℚ) > 1 / 2) ↔ 2 * s > n := by
  rw [gt_iff_lt, div_lt_div_iff (by norm_num) (by exact_mod_cast hn)]
  constructor
  · intro h
    have h' : (n : ℚ) < 2 * s := by linarith
    exact_mod_cast h'
  · intro h
    have h' : (n : ℚ) < 2 * s := by exact_mod_cast h
    linarith

/-- `validate_text` with the ratio branch in integer form (used to evaluate
the validator on concrete inputs). -/
lemma validateText_eq (m : Nat) (t : String) :
    validateText m t =
      (if t = "" then (false, "Input must be a non-empty string")
       else if t.length > m then
         (false, "Input too long (max " ++ toString m ++ " characters)")
       else if anyDangerous t.data then
         (false, "Input contains potentially dangerous content")
       else if 2 * specialCount t.data > t.length then
         (false, "Input contains too many special characters")
       else (true, "Valid")) := by
  unfold validateText
  by_cases h0 : t = ""
  · rw [if_pos h0, if_pos h0]
  · rw [if_neg h0, if_neg h0]
    by_cases h1 : t.length > m
    · rw [if_pos h1, if_pos h1]
    · rw [if_neg h1, if_neg h1]
      by_cases h2 : anyDangerous t.data
      · rw [if_pos h2, if_pos h2]
      · rw [if_neg h2, if_neg h2]
        have hn : 0 < t.length := by
          rcases t with ⟨data⟩
          cases data with
          | nil => exact absurd rfl h0
          | cons c cs => simp [String.length]
        by_cases h3 : 2 * specialCount t.data > t.length
        · rw [if_pos ((ratio_iff _ _ hn).mpr h3), if_pos h3]
        · rw [if_neg (fun hc => h3 ((ratio_iff _ _ hn).mp hc)), if_neg h3]

/-- The validator accepts exactly the nonempty, short-enough, pattern-free,
mostly-alphanumeric strings. -/
lemma validateText_fst_false_iff (m : Nat) (t : String) :
    (validateText m t).1 = false ↔
      (t = "" ∨ t.length > m ∨ anyDangerous t.data = true ∨
        2 * specialCount t.data > t.length) := by
  rw [validateText_eq]
  by_cases h0 : t = "" <;> by_cases h1 : t.length > m <;>
    by_cases h2 : anyDangerous t.data <;>
    by_cases h3 : 2 * specialCount t.data > t.length <;>
    simp [h0, h1, h2, h3]

lemma noAdjWs_tail (a : Char) (t : List Char) (h : noAdjWs (a :: t) = true) :
    noAdjWs t = true := by
  cases t with
  | nil => rfl
  | cons b t' =>
    simp only [noAdjWs, Bool.and_eq_true] at h
    exact h.2

lemma findWsRun_split : ∀ (cs : List Char) (i l : Nat),
    wsOnlySpaces cs = true → noAdjWs cs = true →
    findWsRun cs = some (i, l) →
    ∃ pre post, cs = pre ++ ' ' :: post ∧ pre.length = i ∧ l = 1 ∧
      wsOnlySpaces post = true ∧ noAdjWs post = true := by
  intro cs
  induction cs with
  | nil =>
    intro i l _ _ h
    simp [findWsRun, scanMatch, List.takeWhile] at h
  | cons c t ih =>
    intro i l hall hadj hf
    by_cases hc : pyIsSpace c = true
    · have hcs : c = ' ' := by
        have h1 := (List.all_eq_true.mp hall) c (by simp)
        simp only [hc, Bool.not_true, Bool.false_or, beq_iff_eq] at h1
        exact h1
      have htw : t.takeWhile pyIsSpace = [] := by
        cases t with
        | nil => rfl
        | cons d t' =>
          simp only [noAdjWs, Bool.and_eq_true, Bool.not_eq_true',
            Bool.and_eq_false_iff] at hadj
          rcases hadj.1 with hx | hx
          · rw [hc] at hx; cases hx
          · simp [List.takeWhile, hx]
      have hred : findWsRun (c :: t) = some (0, 1) := by
        simp [findWsRun, scanMatch, List.takeWhile, hc, htw]
      rw [hred] at hf
      simp only [Option.some.injEq, Prod.mk.injEq] at hf
      refine ⟨[], t, by simp [hcs], by simp [hf.1], by omega, ?_, ?_⟩
      · exact List.all_eq_true.mpr (fun x hx =>
          (List.all_eq_true.mp hall) x (by simp [hx]))
      · exact noAdjWs_tail c t hadj
    · have hred : findWsRun (c :: t) =
          (findWsRun t).map (fun p => (p.1 + 1, p.2)) := by
        simp [findWsRun, scanMatch, List.takeWhile, hc]
      rw [hred] at hf
      obtain ⟨⟨i', l'⟩, hft, heq⟩ := Option.map_eq_some'.mp hf
      simp only [Prod.mk.injEq] at heq
      obtain ⟨pre', post', hsplit, hlen, hl, hpall, hpadj⟩ :=
        ih i' l'
          (List.all_eq_true.mpr (fun x hx =>
            (List.all_eq_true.mp hall) x (by simp [hx])))
          (noAdjWs_tail c t hadj) hft
      refine ⟨c :: pre', post', by simp [hsplit], by simp [hlen, ← heq.1],
        by omega, hpall, hpadj⟩

lemma pySubAll_ws_id : ∀ (fuel : Nat) (cs : List Char), cs.length < fuel →
    wsOnlySpaces cs = true → noAdjWs cs = true →
    pySubAll findWsRun [' '] fuel cs = cs := by
  intro fuel
  induction fuel with
  | zero => intro cs h; omega
  | succ m ih =>
    intro cs hlen hall hadj
    cases hf : findWsRun cs with
    | none => simp [pySubAll, hf]
    | some p =>
      obtain ⟨i, l⟩ := p
      obtain ⟨pre, post, hsplit, hpre, hl, hpall, hpadj⟩ :=
        findWsRun_split cs i l hall hadj hf
      subst hl
      have hstep : pySubAll findWsRun [' '] (m + 1) cs =
          cs.take i ++ [' '] ++ pySubAll findWsRun [' '] m (cs.drop (i + 1)) := by
        simp [pySubAll, hf]
      rw [hstep]
      have htake : cs.take i = pre := by
        rw [hsplit, ← hpre]
        exact List.take_left pre (' ' :: post)
      have hdrop : cs.drop (i + 1) = post := by
        have hsplit2 : cs = (pre ++ [' ']) ++ post := by
          rw [hsplit]; simp
        have hlen2 : (pre ++ [' ']).length = i + 1 := by
          simp [hpre]
        rw [hsplit2, ← hlen2]
        exact List.drop_left (pre ++ [' ']) post
      rw [htake, hdrop]
      have hrec : pySubAll findWsRun [' '] m post = post := by
        apply ih post ?_ hpall hpadj
        have : cs.length = pre.length + 1 + post.length := by
          rw [hsplit]; simp; omega
        omega
      rw [hrec, hsplit]
      simp

lemma dropWhile_eq_self_of_head (p : Char → Bool) (cs : List Char)
    (h : ∀ c, cs.head? = some c → p c = false) : cs.dropWhile p = cs := by
  cases cs with
  | nil => rfl
  | cons c t =>
    have := h c rfl
    simp [List.dropWhile, this]

lemma pyStrip_eq_self (cs : List Char)
    (h1 : ∀ c, cs.head? = some c → pyIsSpace c = false)
    (h2 : ∀ c, cs.getLast? = some c → pyIsSpace c = false) :
    pyStrip cs = cs := by
  unfold pyStrip
  rw [dropWhile_eq_self_of_head pyIsSpace cs h1]
  rw [dropWhile_eq_self_of_head pyIsSpace cs.reverse
    (fun c hc => h2 c (by rwa [List.head?_reverse] at hc))]
  exact List.reverse_reverse cs

lemma pySub_of_none (f : List Char → Option (Nat × Nat)) (repl : List Char)
    (cs : List Char) (h : f cs = none) : pySub f repl cs = cs := by
  simp [pySub, pySubAll, h]

lemma foldl_pySub_of_none (L : List (List Char → Option (Nat × Nat)))
    (cs : List Char) (h : ∀ f ∈ L, f cs = none) :
    L.foldl (fun acc f => pySub f [] acc) cs = cs := by
  induction L with
  | nil => rfl
  | cons g t ih =>
    simp only [List.foldl_cons]
    rw [pySub_of_none g [] cs (h g (by simp))]
    exact ih (fun f hf => h f (by simp [hf]))

lemma wsNormal_unpack (cs : List Char) (h : wsNormal cs = true) :
    (∀ c, cs.head? = some c → pyIsSpace c = false) ∧
      (∀ c, cs.getLast? = some c → pyIsSpace c = false) ∧
      wsOnlySpaces cs = true ∧ noAdjWs cs = true := by
  simp only [wsNormal, Bool.and_eq_true] at h
  obtain ⟨⟨⟨hh, hl⟩, hall⟩, hadj⟩ := h
  refine ⟨?_, ?_, hall, hadj⟩
  · intro c hc
    rw [hc] at hh
    simpa using hh
  · intro c hc
    rw [hc] at hl
    simpa using hl

/-- C8 counterexample: `"a  b"` passes `validate_text` (no dangerous
pattern, zero special characters), yet `sanitize_text` collapses the double
space, so sanitize is not the identity on accepted inputs. -/
theorem sanitize_changes_accepted_input :
    (validateText 1000 "a  b").1 = true ∧
      sanitizeText "a  b" ≠ "a  b" ∧ sanitizeText "a  b" = "a b" := by
  refine ⟨?_, by decide, by decide⟩
  rw [validateText_eq]
  decide

/-- C8 (amended): on every accepted input whose whitespace is already
normalized — no leading or trailing whitespace, every whitespace character
a single isolated space — `sanitize_text` returns the text unchanged. -/
theorem sanitize_identity_on_accepted_normalized (m : Nat) (t : String)
    (hv : (validateText m t).1 = true)
    (hn : wsNormal t.data = true) :
    sanitizeText t = t := by
  have hany : anyDangerous t.data = false := by
    by_cases h : anyDangerous t.data
    · have := (validateText_fst_false_iff m t).mpr (Or.inr (Or.inr (Or.inl h)))
      rw [hv] at this
      cases this
    · simpa using h
  have hnone : ∀ f ∈ dangerousMatchers, f t.data = none := by
    simpa [anyDangerous] using hany
  obtain ⟨hh, hl, hall, hadj⟩ := wsNormal_unpack t.data hn
  have hdef : sanitizeText t = String.mk (pySub findWsRun [' ']
      (pyStrip (dangerousMatchers.foldl (fun acc f => pySub f [] acc)
        t.data))) := rfl
  rw [hdef, foldl_pySub_of_none dangerousMatchers t.data hnone,
    pyStrip_eq_self t.data hh hl,
    show pySub findWsRun [' '] t.data = t.data from
      pySubAll_ws_id (t.data.length + 1) t.data (by omega) hall hadj]

/-- Witness for C8's amended theorem at the accepted, whitespace-normal
input `"ab cd"`. -/
theorem sanitize_identity_on_accepted_normalized_witness :
    sanitizeText "ab cd" = "ab cd" :=
  sanitize_identity_on_accepted_normalized 1000 "ab cd"
    (by rw [validateText_eq]; decide) (by decide)

/-- C9: `validate_text` rejects the empty string, any string one character
over the limit, and `"<script>alert(1)</script>"`; accepts
`"What is flood risk?"`; and in general rejects exactly the inputs that
are empty, too long, match a dangerous pattern, or have more than half
non-alphanumeric non-whitespace characters. -/
theorem validate_rejects_exactly :
    (∀ m, (validateText m "").1 = false) ∧
      (∀ (m : Nat) (t : String), t.length = m + 1 →
        (validateText m t).1 = false) ∧
      (validateText 1000 "<script>alert(1)</script>").1 = false ∧
      validateText 1000 "What is flood risk?" = (true, "Valid") ∧
      (∀ (m : Nat) (t : String), (validateText m t).1 = false ↔
        (t = "" ∨ t.length > m ∨ anyDangerous t.data = true ∨
          2 * specialCount t.data > t.length)) := by
  refine ⟨?_, ?_, ?_, ?_, validateText_fst_false_iff⟩
  · intro m
    exact (validateText_fst_false_iff m "").mpr (Or.inl rfl)
  · intro m t ht
    exact (validateText_fst_false_iff m t).mpr (Or.inr (Or.inl (by omega)))
  · rw [validateText_eq]; decide
  · rw [validateText_eq]; decide

/-- Witness for C9: the too-long clause applied to `"AAAA"` with maximum
length 3. -/
theorem validate_rejects_exactly_witness :
    (validateText 3 "AAAA").1 = false :=
  validate_rejects_exactly.2.1 3 "AAAA" (by decide)

/-- C4 counterexample: `validate_request` consults the rate limiter before
the input validator.  With an empty bucket, the empty (invalid) text is
rejected with the rate-limit reason, not the validation reason; with a
one-token bucket, the invalid text still consumes the token. -/
theorem validation_not_before_rate_limit :
    ((validateRequest 5 "" "cli"
          ⟨true, true, 1000, ⟨1, [("cli", ⟨0, 5⟩)], 5⟩, []⟩).1 =
        (false, "Rate limit exceeded. Please try again later.") ∧
      (validateRequest 5 "" "cli"
          ⟨true, true, 1000, ⟨1, [("cli", ⟨0, 5⟩)], 5⟩, []⟩).1.2 ≠
        "Input must be a non-empty string") ∧
    ((validateRequest 5 "" "cli"
          ⟨true, true, 1000, ⟨1, [("cli", ⟨1, 5⟩)], 5⟩, []⟩).1 =
        (false, "Input must be a non-empty string") ∧
      assocLookup "cli"
          ((validateRequest 5 "" "cli"
              ⟨true, true, 1000, ⟨1, [("cli", ⟨1, 5⟩)], 5⟩, []⟩).2.rl.buckets) =
        some ⟨0, 5⟩) := by
  have hA : isAllowed 5 "cli" ⟨1, [("cli", ⟨0, 5⟩)], 5⟩ =
      (false, ⟨1, [("cli", ⟨0, 5⟩)], 5⟩) := by
    norm_num [isAllowed, assocLookup, setKey, tokensPerSecond]
  have hB : isAllowed 5 "cli" ⟨1, [("cli", ⟨1, 5⟩)], 5⟩ =
      (true, ⟨1, [("cli", ⟨0, 5⟩)], 5⟩) := by
    norm_num [isAllowed, assocLookup, setKey, tokensPerSecond]
  refine ⟨⟨?_, ?_⟩, ?_, ?_⟩
  · simp [validateRequest, hA]
  · simp [validateRequest, hA]
  · simp [validateRequest, hB, validateRequestRest, validateText]
  · simp [validateRequest, hB, validateRequestRest, validateText,
      logSecurityEvent, assocLookup]

/-- C4 (amended): rate-limit admission runs BEFORE input validation.  A
rate-limited request is rejected with the rate-limit reason whatever the
text; a request the limiter admits but the validator rejects gets the
validation reason — and its admission already consumed a token (the final
limiter state is the post-`is_allowed` one). -/
theorem rate_limit_gate_precedes_validation (st : SecurityManagerState)
    (now : ℚ) (text client : String)
    (hrl : st.enableRateLimiting = true) :
    ((isAllowed now client st.rl).1 = false →
      validateRequest now text client st =
        ((false, "Rate limit exceeded. Please try again later."),
          { st with rl := (isAllowed now client st.rl).2 })) ∧
    ((isAllowed now client st.rl).1 = true →
      st.enableInputValidation = true →
      (validateText st.maxInputLength text).1 = false →
      validateRequest now text client st =
        ((false, (validateText st.maxInputLength text).2),
          { st with
              rl := (isAllowed now client st.rl).2,
              requestLog := (logSecurityEvent now "invalid_input" client
                (String.mk (text.data.take 100)) st.requestLog) })) := by
  constructor
  · intro hfalse
    simp only [validateRequest, hrl, if_true]
    rw [if_pos hfalse]
  · intro htrue hiv hvf
    simp only [validateRequest, hrl, if_true]
    rw [if_neg (by rw [htrue]; simp)]
    simp only [validateRequestRest, hiv, if_true]
    rw [if_pos hvf]

/-- Witness for C4's amended theorem: both branches at concrete states —
an exhausted bucket and a one-token bucket, each with the invalid empty
text. -/
theorem rate_limit_gate_precedes_validation_witness :
    (validateRequest 5 "" "cli"
        ⟨true, true, 1000, ⟨1, [("cli", ⟨0, 5⟩)], 5⟩, []⟩ =
      ((false, "Rate limit exceeded. Please try again later."),
        { (⟨true, true, 1000, ⟨1, [("cli", ⟨0, 5⟩)], 5⟩, []⟩ :
            SecurityManagerState) with
          rl := (isAllowed 5 "cli" ⟨1, [("cli", ⟨0, 5⟩)], 5⟩).2 })) ∧
    (validateRequest 5 "" "cli"
        ⟨true, true, 1000, ⟨1, [("cli", ⟨1, 5⟩)], 5⟩, []⟩ =
      ((false, (validateText 1000 "").2),
        { (⟨true, true, 1000, ⟨1, [("cli", ⟨1, 5⟩)], 5⟩, []⟩ :
            SecurityManagerState) with
          rl := (isAllowed 5 "cli" ⟨1, [("cli", ⟨1, 5⟩)], 5⟩).2,
          requestLog := (logSecurityEvent 5 "invalid_input" "cli"
            (String.mk ("".data.take 100)) []) })) :=
  ⟨(rate_limit_gate_precedes_validation
      ⟨true, true, 1000, ⟨1, [("cli", ⟨0, 5⟩)], 5⟩, []⟩ 5 "" "cli" rfl).1
      (by norm_num [isAllowed, assocLookup, setKey, tokensPerSecond]),
    (rate_limit_gate_precedes_validation
      ⟨true, true, 1000, ⟨1, [("cli", ⟨1, 5⟩)], 5⟩, []⟩ 5 "" "cli" rfl).2
      (by norm_num [isAllowed, assocLookup, setKey, tokensPerSecond]) rfl
      (by simp [validateText])⟩

lemma lruGet_miss {α : Type} (k : String) (st : LRUCache α)
    (h : (lruGet k st).1 = none) :
    lruGet k st = (none, st) ∧ assocLookup k st.cache = none := by
  unfold lruGet at *
  cases hl : assocLookup k st.cache with
  | none => simp [hl]
  | some v => rw [hl] at h; simp at h

lemma assocLookup_append {α : Type} (k : String)
    (l₁ l₂ : List (String × α)) :
    assocLookup k (l₁ ++ l₂) =
      (match assocLookup k l₁ with
        | some v => some v
        | none => assocLookup k l₂) := by
  induction l₁ with
  | nil => simp [assocLookup]
  | cons p t ih =>
    obtain ⟨k', v'⟩ := p
    by_cases hk : k' = k
    · simp [assocLookup, hk]
    · simp [assocLookup, hk, ih]

lemma lruPut_fresh {α : Type} (k : String) (v : α) (st : LRUCache α)
    (hlk : assocLookup k st.cache = none) (hcap : 0 < st.capacity) :
    ∃ pre, lruPut k v st = some ⟨st.capacity, pre ++ [(k, v)]⟩ ∧
      assocLookup k pre = none := by
  unfold lruPut
  rw [hlk]
  by_cases hge : st.cache.length ≥ st.capacity
  · rw [if_pos hge]
    cases hc : st.cache with
    | nil =>
      rw [hc] at hge
      simp at hge
      omega
    | cons p rest =>
      refine ⟨rest, rfl, ?_⟩
      rw [hc] at hlk
      obtain ⟨k', v'⟩ := p
      simp only [assocLookup] at hlk
      by_cases hk : k' = k
      · rw [if_pos hk] at hlk; cases hlk
      · rwa [if_neg hk] at hlk
  · rw [if_neg hge]
    exact ⟨st.cache, rfl, hlk⟩

lemma addToConversationMemory_frame (now : Int)
    (cid q r : String) (st : RAGState) :
    (addToConversationMemory now cid q r st).responseCache =
        st.responseCache ∧
      (addToConversationMemory now cid q r st).metrics = st.metrics := by
  simp only [addToConversationMemory, cleanupMemory]
  split_ifs <;> exact ⟨rfl, rfl⟩

/-- `process_query` on a valid question that misses the response cache
proceeds to the compute path with the query counter bumped. -/
lemma processQuery_miss (gen : Except String String) (now : Int) (e : ℚ)
    (question cid : String) (st : RAGState)
    (hq : ¬ stripStr question = "")
    (hlen : ¬ (stripStr question).length > 1000)
    (hmiss : (lruGet (generateCacheKey (stripStr question) cid)
        st.responseCache).1 = none) :
    processQuery gen now e question cid st =
      processCompute gen now e (stripStr question) cid
        (generateCacheKey (stripStr question) cid)
        { st with metrics :=
          { st.metrics with totalQueries := st.metrics.totalQueries + 1 } } := by
  have hm := (lruGet_miss _ _ hmiss).1
  simp only [processQuery, if_neg hq, if_neg hlen, hm]

/-- `process_query` on a valid question that hits the response cache with a
truthy (non-empty) envelope returns that envelope unchanged, bumps the hit
counter, and only refreshes the key's recency. -/
lemma processQuery_hit (gen : Except String String) (now : Int) (e : ℚ)
    (question cid : String) (st : RAGState) (env : PyDict)
    (hq : ¬ stripStr question = "")
    (hlen : ¬ (stripStr question).length > 1000)
    (hhit : (lruGet (generateCacheKey (stripStr question) cid)
        st.responseCache).1 = some env)
    (hne : env ≠ []) :
    processQuery gen now e question cid st =
      some (env,
        { st with
            responseCache := (lruGet (generateCacheKey (stripStr question)
              cid) st.responseCache).2,
            metrics := { st.metrics with
              totalQueries := st.metrics.totalQueries + 1,
              cacheHits := st.metrics.cacheHits + 1 } }) := by
  simp only [processQuery, if_neg hq, if_neg hlen, hhit]
  rw [if_neg (by simpa using hne)]

/-- C7: when the external chain raises, `process_query` returns the error
envelope — `success=false` with the error message — and writes nothing to
the response cache (a miss performs no mutation, and the error path skips
the put). -/
theorem failed_query_error_envelope_uncached (e : String) (now : Int)
    (elapsed : ℚ) (question cid : String) (st : RAGState)
    (hq : ¬ stripStr question = "")
    (hlen : ¬ (stripStr question).length > 1000)
    (hmiss : (lruGet (generateCacheKey (stripStr question) cid)
        st.responseCache).1 = none) :
    processQuery (.error e) now elapsed question cid st =
      some (createErrorResponse e cid,
        { st with metrics := { st.metrics with
            totalQueries := st.metrics.totalQueries + 1 } }) ∧
      assocLookup "success" (createErrorResponse e cid) = some (.b false) ∧
      assocLookup "error" (createErrorResponse e cid) = some (.s e) ∧
      ({ st with metrics := { st.metrics with
          totalQueries := st.metrics.totalQueries + 1 } } :
        RAGState).responseCache = st.responseCache := by
  refine ⟨?_, by simp [createErrorResponse, assocLookup],
    by simp [createErrorResponse, assocLookup], rfl⟩
  rw [processQuery_miss (.error e) now elapsed question cid st hq hlen hmiss]
  rfl

/-- Witness for C7: a failing generator on a fresh pipeline state. -/
theorem failed_query_error_envelope_uncached_witness :
    processQuery (.error "boom") 10000 1 " hi " "d"
        ⟨⟨200, []⟩, ⟨100, []⟩, [], 500, 0, ⟨0, 0, 0, 0⟩⟩ =
      some (createErrorResponse "boom" "d",
        ⟨⟨200, []⟩, ⟨100, []⟩, [], 500, 0, ⟨1, 0, 0, 0⟩⟩) :=
  (failed_query_error_envelope_uncached "boom" 10000 1 " hi " "d"
    ⟨⟨200, []⟩, ⟨100, []⟩, [], 500, 0, ⟨0, 0, 0, 0⟩⟩
    (by decide) (by decide) (by decide)).1

/-- C10: `LRUCache.get` returns `None` both for an absent key and for a
stored `None` value, so Python callers cannot tell the two apart; and
because `_get_context` guards the cached value with `if cached_context:`,
a cached empty-string context is treated as a miss — the context is
recomputed and re-cached on every lookup. -/
theorem lru_none_conflation_and_empty_context_recompute :
    (∀ (α : Type) (st st' : LRUCache (Option α)) (k : String),
        keysNodup st.cache →
        lruPut k none st = some st' →
        lruGetPy k st' = none) ∧
    (∀ (α : Type) (cap : Nat) (k : String),
        lruGetPy k (LRUCache.empty (Option α) cap) = none) ∧
    (∀ (cache : LRUCache String) (q : String) (docs : List PyDoc)
        (c' : LRUCache String),
        ¬ q = "" →
        (lruGet (contextCacheKey q) cache).1 = some "" →
        lruPut (contextCacheKey q) (formatContext docs)
            (lruGet (contextCacheKey q) cache).2 = some c' →
        getContext (.ok docs) q cache = some (formatContext docs, c')) := by
  refine ⟨?_, ?_, ?_⟩
  · intro α st st' k hnd hput
    unfold lruGetPy
    unfold lruPut at hput
    cases hl : assocLookup k st.cache with
    | some w =>
      rw [hl] at hput
      simp only [Option.some.injEq] at hput
      subst hput
      unfold lruGet
      simp only
      rw [show assocLookup k (assocErase k st.cache ++ [(k, none)]) =
          some none from ?_]
      · rfl
      · rw [assocLookup_append, assocLookup_assocErase_self k st.cache hnd]
        simp [assocLookup]
    | none =>
      rw [hl] at hput
      by_cases hge : st.cache.length ≥ st.capacity
      · rw [if_pos hge] at hput
        cases hc : st.cache with
        | nil => rw [hc] at hput; exact absurd hput (by simp)
        | cons p rest =>
          rw [hc] at hput
          simp only [Option.some.injEq] at hput
          subst hput
          unfold lruGet
          simp only
          rw [show assocLookup k (rest ++ [(k, (none : Option α))]) =
              some none from ?_]
          · rfl
          · rw [assocLookup_append]
            rw [hc] at hl
            obtain ⟨k', v'⟩ := p
            simp only [assocLookup] at hl
            by_cases hk : k' = k
            · rw [if_pos hk] at hl; cases hl
            · rw [if_neg hk] at hl
              rw [hl]
              simp [assocLookup]
      · rw [if_neg hge] at hput
        simp only [Option.some.injEq] at hput
        subst hput
        unfold lruGet
        simp only
        rw [show assocLookup k (st.cache ++ [(k, (none : Option α))]) =
            some none from ?_]
        · rfl
        · rw [assocLookup_append, hl]
          simp [assocLookup]
  · intro α cap k
    unfold lruGetPy lruGet LRUCache.empty
    simp [assocLookup]
  · intro cache q docs c' hq hhit hput
    simp only [getContext, if_neg hq, hhit, if_true]
    simp only [computeContext, hput]

/-- Witness for C10: a context cache holding the empty string under the
key `"q"`; the lookup recomputes and overwrites it. -/
theorem lru_none_conflation_and_empty_context_recompute_witness :
    getContext (.ok []) "q" ⟨2, [("q", "")]⟩ =
      some (formatContext [],
        ⟨2, [("q", "No relevant context found in the documents.")]⟩) :=
  lru_none_conflation_and_empty_context_recompute.2.2
    ⟨2, [("q", "")]⟩ "q" [] ⟨2, [("q", "No relevant context found in the documents.")]⟩
    (by decide) (by decide) (by decide)

/-- The compute path on a successful generation with a fresh key: the
success envelope is built, the exchange recorded, and the envelope cached
under the key (appended at the most-recent end). -/
lemma processCompute_ok (r : String) (now : Int) (e : ℚ)
    (q cid key : String) (st : RAGState)
    (hlk : assocLookup key st.responseCache.cache = none)
    (hcap : 0 < st.responseCache.capacity) :
    ∃ pre,
      assocLookup key pre = none ∧
      processCompute (.ok r) now e q cid key st =
        some (successEnvelope
            (if r = "" then "No response generated" else stripStr r) cid
            (extractSources
              (if r = "" then "No response generated" else stripStr r)) e,
          { addToConversationMemory now cid q
              (if r = "" then "No response generated" else stripStr r) st with
            responseCache :=
              (⟨st.responseCache.capacity,
                pre ++ [(key, successEnvelope
                  (if r = "" then "No response generated" else stripStr r)
                  cid
                  (extractSources (if r = "" then "No response generated"
                    else stripStr r)) e)]⟩ : LRUCache PyDict),
            metrics := (updateMetrics e
              (addToConversationMemory now cid q
                (if r = "" then "No response generated" else stripStr r)
                st).metrics) }) := by
  have hframe := addToConversationMemory_frame now cid q
    (if r = "" then "No response generated" else stripStr r) st
  have hlk₁ : assocLookup key
      (addToConversationMemory now cid q
        (if r = "" then "No response generated" else stripStr r)
        st).responseCache.cache = none := by
    rw [hframe.1]; exact hlk
  have hcap₁ : 0 < (addToConversationMemory now cid q
      (if r = "" then "No response generated" else stripStr r)
      st).responseCache.capacity := by
    rw [hframe.1]; exact hcap
  obtain ⟨pre, hput, hpre⟩ := lruPut_fresh key
    (successEnvelope (if r = "" then "No response generated" else stripStr r)
      cid (extractSources (if r = "" then "No response generated"
        else stripStr r)) e)
    _ hlk₁ hcap₁
  refine ⟨pre, hpre, ?_⟩
  simp only [processCompute]
  rw [hput, hframe.1]

lemma lruGet_fst_append {α : Type} (k : String) (pre : List (String × α))
    (v : α) (cap : Nat) (hpre : assocLookup k pre = none) :
    (lruGet k ⟨cap, pre ++ [(k, v)]⟩).1 = some v := by
  unfold lruGet
  simp only
  rw [assocLookup_append, hpre]
  simp [assocLookup]

/-- C2 (amended): after a first `process_query` call on a valid question
that misses the cache and generates successfully, every later call with
the same question and conversation id — regardless of its generator,
instant or duration — returns the very same envelope (including the first
call's `processing_time`), only bumps the query and cache-hit counters and
the key's recency, and leaves the conversation memory untouched.  The
envelopes carry no `cached` key at all, and the LRU response cache used by
`process_query` has no TTL. -/
theorem repeated_query_identical_envelope_no_cached_flag
    (r : String) (now1 : Int) (e1 : ℚ) (question cid : String)
    (st : RAGState)
    (hq : ¬ stripStr question = "")
    (hlen : ¬ (stripStr question).length > 1000)
    (hmiss : (lruGet (generateCacheKey (stripStr question) cid)
        st.responseCache).1 = none)
    (hcap : 0 < st.responseCache.capacity) :
    ∃ env1 st1,
      processQuery (.ok r) now1 e1 question cid st = some (env1, st1) ∧
      (∀ (gen2 : Except String String) (now2 : Int) (e2 : ℚ),
        processQuery gen2 now2 e2 question cid st1 =
          some (env1,
            { st1 with
                responseCache := (lruGet (generateCacheKey
                  (stripStr question) cid) st1.responseCache).2,
                metrics := { st1.metrics with
                  totalQueries := st1.metrics.totalQueries + 1,
                  cacheHits := st1.metrics.cacheHits + 1 } })) ∧
      assocLookup "cached" env1 = none ∧
      assocLookup "response" env1 =
        some (.s (if r = "" then "No response generated"
          else stripStr r)) := by
  have hbump :
      ({ st with metrics := { st.metrics with
          totalQueries := st.metrics.totalQueries + 1 } } :
        RAGState).responseCache = st.responseCache := rfl
  have hlk : assocLookup (generateCacheKey (stripStr question) cid)
      ({ st with metrics := { st.metrics with
          totalQueries := st.metrics.totalQueries + 1 } } :
        RAGState).responseCache.cache = none := by
    rw [hbump]
    exact (lruGet_miss _ _ hmiss).2
  obtain ⟨pre, hpre, hcomp⟩ := processCompute_ok r now1 e1
    (stripStr question) cid (generateCacheKey (stripStr question) cid)
    { st with metrics := { st.metrics with
        totalQueries := st.metrics.totalQueries + 1 } }
    hlk (by rw [hbump]; exact hcap)
  have hrun1 := processQuery_miss (.ok r) now1 e1 question cid st
    hq hlen hmiss
  rw [hcomp] at hrun1
  refine ⟨_, _, hrun1, ?_, ?_, ?_⟩
  · intro gen2 now2 e2
    refine processQuery_hit gen2 now2 e2 question cid _ _ hq hlen ?_
      (by simp [successEnvelope])
    exact lruGet_fst_append _ pre _ _ hpre
  · simp [successEnvelope, assocLookup]
  · simp [successEnvelope, assocLookup]

/-- Witness for C2's amended theorem: a first call on a fresh pipeline. -/
theorem repeated_query_identical_envelope_no_cached_flag_witness :
    ∃ env1 st1,
      processQuery (.ok "hello") 10000 1 "hi" "d"
          ⟨⟨200, []⟩, ⟨100, []⟩, [], 500, 0, ⟨0, 0, 0, 0⟩⟩ =
        some (env1, st1) ∧
      (∀ (gen2 : Except String String) (now2 : Int) (e2 : ℚ),
        processQuery gen2 now2 e2 "hi" "d" st1 =
          some (env1,
            { st1 with
                responseCache := (lruGet (generateCacheKey
                  (stripStr "hi") "d") st1.responseCache).2,
                metrics := { st1.metrics with
                  totalQueries := st1.metrics.totalQueries + 1,
                  cacheHits := st1.metrics.cacheHits + 1 } })) ∧
      assocLookup "cached" env1 = none ∧
      assocLookup "response" env1 =
        some (.s (if "hello" = "" then "No response generated"
          else stripStr "hello")) :=
  repeated_query_identical_envelope_no_cached_flag "hello"
    10000 1 "hi" "d"
    ⟨⟨200, []⟩, ⟨100, []⟩, [], 500, 0, ⟨0, 0, 0, 0⟩⟩
    (by decide) (by decide) (by decide) (by decide)

set_option maxRecDepth 100000 in
/-- C2 counterexample: the envelopes returned by `process_query` contain
no `cached` key at all — neither `cached=false` on the miss nor
`cached=true` on the hit; the hit simply returns the stored dict. -/
theorem envelopes_carry_no_cached_field :
    processQuery (.ok "hello") 10000 0 "hi" "d"
        ⟨⟨200, []⟩, ⟨100, []⟩, [], 500, 0, ⟨0, 0, 0, 0⟩⟩ =
      some ([("response", .s "hello"), ("conversation_id", .s "d"),
          ("sources", .strList []), ("success", .b true),
          ("processing_time", .f 0)],
        ⟨⟨200, [("hi:d", [("response", .s "hello"),
            ("conversation_id", .s "d"), ("sources", .strList []),
            ("success", .b true), ("processing_time", .f 0)])]⟩,
          ⟨100, []⟩, [("d", [⟨"hi", "hello", 10000⟩])], 500, 7,
          updateMetrics 0 ⟨1, 0, 0, 0⟩⟩) ∧
    processQuery (.ok "other") 10005 0 "hi" "d"
        ⟨⟨200, [("hi:d", [("response", .s "hello"),
            ("conversation_id", .s "d"), ("sources", .strList []),
            ("success", .b true), ("processing_time", .f 0)])]⟩,
          ⟨100, []⟩, [("d", [⟨"hi", "hello", 10000⟩])], 500, 7,
          updateMetrics 0 ⟨1, 0, 0, 0⟩⟩ =
      some ([("response", .s "hello"), ("conversation_id", .s "d"),
          ("sources", .strList []), ("success", .b true),
          ("processing_time", .f 0)],
        ⟨⟨200, [("hi:d", [("response", .s "hello"),
            ("conversation_id", .s "d"), ("sources", .strList []),
            ("success", .b true), ("processing_time", .f 0)])]⟩,
          ⟨100, []⟩, [("d", [⟨"hi", "hello", 10000⟩])], 500, 7,
          { updateMetrics 0 ⟨1, 0, 0, 0⟩ with
              totalQueries := (updateMetrics 0 ⟨1, 0, 0, 0⟩).totalQueries + 1,
              cacheHits := (updateMetrics 0 ⟨1, 0, 0, 0⟩).cacheHits + 1 }⟩) ∧
    assocLookup "cached"
      [("response", PyVal.s "hello"), ("conversation_id", .s "d"),
        ("sources", .strList []), ("success", .b true),
        ("processing_time", .f 0)] = none := by
  refine ⟨rfl, rfl, rfl⟩

set_option maxRecDepth 100000 in
/-- C3 (the code at the spec's sweep): a conversation with eleven
exchanges all inside the retention window, in a pipeline configured with
`max_memory_mb = 0`.  The sweep keeps the EARLIEST ten in-window exchanges
(dropping the most recent one, timestamp 10011) and the recomputed usage
remains above the ceiling. -/
theorem cleanup_keeps_earliest_and_exceeds_ceiling :
    (cleanupMemory 10011
        ⟨⟨2, []⟩, ⟨1, []⟩,
          [("c", [⟨"q", "r", 10001⟩, ⟨"q", "r", 10002⟩, ⟨"q", "r", 10003⟩,
            ⟨"q", "r", 10004⟩, ⟨"q", "r", 10005⟩, ⟨"q", "r", 10006⟩,
            ⟨"q", "r", 10007⟩, ⟨"q", "r", 10008⟩, ⟨"q", "r", 10009⟩,
            ⟨"q", "r", 10010⟩, ⟨"q", "r", 10011⟩])],
          0, 100, ⟨0, 0, 0, 0⟩⟩).conversationMemory =
      [("c", [⟨"q", "r", 10001⟩, ⟨"q", "r", 10002⟩, ⟨"q", "r", 10003⟩,
        ⟨"q", "r", 10004⟩, ⟨"q", "r", 10005⟩, ⟨"q", "r", 10006⟩,
        ⟨"q", "r", 10007⟩, ⟨"q", "r", 10008⟩, ⟨"q", "r", 10009⟩,
        ⟨"q", "r", 10010⟩])] ∧
    (cleanupMemory 10011
        ⟨⟨2, []⟩, ⟨1, []⟩,
          [("c", [⟨"q", "r", 10001⟩, ⟨"q", "r", 10002⟩, ⟨"q", "r", 10003⟩,
            ⟨"q", "r", 10004⟩, ⟨"q", "r", 10005⟩, ⟨"q", "r", 10006⟩,
            ⟨"q", "r", 10007⟩, ⟨"q", "r", 10008⟩, ⟨"q", "r", 10009⟩,
            ⟨"q", "r", 10010⟩, ⟨"q", "r", 10011⟩])],
          0, 100, ⟨0, 0, 0, 0⟩⟩).currentMemoryUsage > 0 * 1024 * 1024 ∧
    ((10011 : Int) > 10011 - 3600) ∧
    (100 > 0 * 1024 * 1024) := by
  refine ⟨by decide, by decide, by decide, by decide⟩

end Neoc
